import Mathlib

/-!
Account chaincode (`chaincode-go/account_chaincode.go`)

A shallow embedding of the account smart contract: the record type `Account`, the five
contract operations `AccountExists`, `CreateAccount`, `ReadAccount`, `UpdateAccount`,
`GetAccountHistory`, the ledger stub they run against, and the two Go library functions
whose outcome decides their control flow (`strconv.ParseFloat`, `encoding/json`).

Conventions.
* Go `string` and `[]byte` values are modelled as Lean `String`s, that is as valid UTF-8 text.
* A Go function returning `(T, error)` returns `Except Error T`; an operation that can write to
  the ledger returns its result together with the ledger it leaves behind.
* `float64` is modelled by the exact value it denotes, see `float64`.
-/

/-- Equality of Go results `(T, error)` is decidable when it is on values and on errors. -/
instance instDecidableEqExcept {ε α : Type} [DecidableEq ε] [DecidableEq α] :
    DecidableEq (Except ε α)
  | .ok a, .ok b => if h : a = b then isTrue (by rw [h]) else isFalse (fun h1 => h (by cases h1; rfl))
  | .error a, .error b =>
    if h : a = b then isTrue (by rw [h]) else isFalse (fun h1 => h (by cases h1; rfl))
  | .ok _, .error _ => isFalse (fun h => by cases h)
  | .error _, .ok _ => isFalse (fun h => by cases h)

/-! ## float64 -/

/-- Go's `float64`: not-a-number, a signed infinity, or the finite value
`(-1)^neg * mant * 2^exp`. Finite values are kept with an odd mantissa (zero is
`num neg 0 0`), so that two finite values are equal exactly when they denote the same
number with the same sign. -/
inductive float64 where
  | NaN : float64
  | Inf (neg : Bool) : float64
  | num (neg : Bool) (mant : Nat) (exp : Int) : float64
deriving DecidableEq, Repr, Inhabited

namespace float64

/-- The zero value of a Go `float64` variable. -/
def zero : float64 := num false 0 0

/-- Strips the trailing zero bits of a mantissa, adding them to the exponent. -/
def normalize : Nat → Nat → Int → Nat × Int
  | 0, m, e => (m, e)
  | fuel + 1, m, e =>
    if m = 0 then (0, 0)
    else if m % 2 = 0 then normalize fuel (m / 2) (e + 1)
    else (m, e)

/-- Position of the highest set bit: `bitLen n n` is the number of binary digits of `n`. -/
def bitLen : Nat → Nat → Nat
  | 0, _ => 0
  | fuel + 1, n => if n = 0 then 0 else bitLen fuel (n / 2) + 1

/-- IEEE 754 binary64 rounding (round to nearest, ties to even) of the positive rational
`n / d`: the result is `some (mant, exp)` with value `mant * 2^exp`, or `none` when the
rounded value does not fit (it is `2^1024` or more, that is `mant * 2^exp` has
more than 1024 binary digits). -/
def round (n d : Nat) : Option (Nat × Int) :=
  if n = 0 then some (0, 0)
  else
    -- 2^(e2-1) ≤ n/d < 2^(e2+1)
    let e2 : Int := (bitLen n n : Int) - (bitLen d d : Int)
    let lo : Int := if 2 ^ (e2.toNat) * d ≤ n * 2 ^ ((-e2).toNat) then e2 else e2 - 1
    -- the unit in the last place is 2^q
    let q : Int := max (lo - 52) (-1074)
    let n1 := n * 2 ^ ((-q).toNat)
    let d1 := d * 2 ^ (q.toNat)
    let m := n1 / d1
    let r := n1 % d1
    let m1 := if d1 < 2 * r ∨ (2 * r = d1 ∧ m % 2 = 1) then m + 1 else m
    if 1024 < q + (bitLen m1 m1 : Int) then none
    else some (normalize 64 m1 q)

end float64

/-! ## strconv.ParseFloat -/

namespace strconv

/-- The two sentinel errors of package `strconv`: `ErrSyntax` and `ErrRange`. -/
inductive Err where
  | ErrSyntax
  | ErrRange
deriving DecidableEq, Repr

/-- Go's `*strconv.NumError`: the failing function, the input text and the reason. -/
structure NumError where
  Func : String
  Num : String
  Err : Err
deriving DecidableEq, Repr

def syntaxError (fn str : String) : NumError := ⟨fn, str, .ErrSyntax⟩

def rangeError (fn str : String) : NumError := ⟨fn, str, .ErrRange⟩

/-- Length of the longest common prefix of `s` and `pre`, ASCII upper case letters of `s`
being lowered first. -/
def commonPrefixLenIgnoreCase : List Char → List Char → Nat
  | c :: s, p :: pre =>
    let c1 := if 'A' ≤ c ∧ c ≤ 'Z' then Char.ofNat (c.toNat + 32) else c
    if c1 = p then commonPrefixLenIgnoreCase s pre + 1 else 0
  | _, _ => 0

/-- The infinity test of `special`, on the text after an optional sign: the number of
characters consumed, `nsign` included. -/
def specialInf (neg : Bool) (nsign : Nat) (s : List Char) : Option (float64 × Nat) :=
  let n := commonPrefixLenIgnoreCase s "infinity".toList
  -- anything longer than "inf" is ok, but without the whole of "infinity" only "inf" is consumed
  let n := if 3 < n ∧ n < 8 then 3 else n
  if n = 3 ∨ n = 8 then some (float64.Inf neg, nsign + n) else none

/-- Go's `special`: recognises a prefix `NaN`, `Inf`, `Infinity` (any case, the
infinities with an optional sign) and returns the value with the number of characters
consumed. -/
def special : List Char → Option (float64 × Nat)
  | [] => none
  | c :: s =>
    if c = '+' then specialInf false 1 s
    else if c = '-' then specialInf true 1 s
    else if c = 'i' ∨ c = 'I' then specialInf false 0 (c :: s)
    else if c = 'n' ∨ c = 'N' then
      if commonPrefixLenIgnoreCase (c :: s) "nan".toList = 3 then some (float64.NaN, 3) else none
    else none

/-- The running state of the digit loop of `readFloat`. The mantissa keeps every digit
(Go keeps the first 19 and a `trunc` flag, and falls back to the exact decimal conversion
when the flag matters; the value that is rounded is the same). -/
structure Digits where
  underscores : Bool
  sawdot : Bool
  sawdigits : Bool
  nd : Nat
  dp : Int
  mantissa : Nat

/-- `c` is one of `a`..`f`, `A`..`F`. -/
def isHexLetter (c : Char) : Bool := ('a' ≤ c ∧ c ≤ 'f') ∨ ('A' ≤ c ∧ c ≤ 'F')

/-- Value of a hexadecimal letter: `lower(c) - 'a' + 10`. -/
def hexLetterVal (c : Char) : Nat := if 'a' ≤ c then c.toNat - 97 + 10 else c.toNat - 65 + 10

/-- The digit loop of `readFloat` (the labelled `loop:`): returns the state and the
unread rest of the text. -/
def readDigits (hex : Bool) : List Char → Digits → Digits × List Char
  | [], st => (st, [])
  | c :: cs, st =>
    if c = '_' then readDigits hex cs { st with underscores := true }
    else if c = '.' then
      if st.sawdot then (st, c :: cs)
      else readDigits hex cs { st with sawdot := true, dp := st.nd }
    else if '0' ≤ c ∧ c ≤ '9' then
      if c = '0' ∧ st.nd = 0 then
        -- ignore leading zeros
        readDigits hex cs { st with sawdigits := true, dp := st.dp - 1 }
      else
        readDigits hex cs { st with sawdigits := true, nd := st.nd + 1,
                                    mantissa := st.mantissa * (if hex then 16 else 10)
                                      + (c.toNat - 48) }
    else if hex ∧ isHexLetter c then
      readDigits hex cs { st with sawdigits := true, nd := st.nd + 1,
                                  mantissa := st.mantissa * 16 + hexLetterVal c }
    else (st, c :: cs)

/-- The exponent loop of `readFloat`: digits and underscores; the exponent stops growing
once it has reached 10000. Returns the exponent, whether an underscore was seen, and
the rest. -/
def readExp : List Char → Nat → Bool → Nat × Bool × List Char
  | [], e, u => (e, u, [])
  | c :: cs, e, u =>
    if c = '_' then readExp cs e true
    else if '0' ≤ c ∧ c ≤ '9' then
      readExp cs (if e < 10000 then e * 10 + (c.toNat - 48) else e) u
    else (e, u, c :: cs)

/-- The scan of `underscoreOK` over the number proper: `saw` is `'0'` after a digit or
base prefix, `'_'` after an underscore, `'^'` at the start and `'!'` otherwise. -/
def underscoreScan (hex : Bool) : List Char → Char → Bool
  | [], saw => saw ≠ '_'
  | c :: cs, saw =>
    if ('0' ≤ c ∧ c ≤ '9') ∨ (hex ∧ isHexLetter c) then underscoreScan hex cs '0'
    else if c = '_' then
      if saw ≠ '0' then false else underscoreScan hex cs '_'
    else if saw = '_' then false
    else underscoreScan hex cs '!'

/-- Go's `underscoreOK`: underscores only between digits (or right after a base prefix). -/
def underscoreOK (s : List Char) : Bool :=
  let s := match s with
    | c :: t => if c = '-' ∨ c = '+' then t else s
    | [] => s
  match s with
  | c0 :: c1 :: t =>
    if c0 = '0' ∧ (c1 = 'b' ∨ c1 = 'B' ∨ c1 = 'o' ∨ c1 = 'O' ∨ c1 = 'x' ∨ c1 = 'X') then
      underscoreScan (c1 = 'x' ∨ c1 = 'X') t '0'
    else underscoreScan false s '^'
  | _ => underscoreScan false s '^'

/-- What `readFloat` extracts from a well-formed prefix: the sign, the base, the
mantissa and the exponent of the base (10, or 2 for a hexadecimal text), and the number
of characters read. -/
structure Scanned where
  neg : Bool
  hex : Bool
  mantissa : Nat
  exp : Int
  n : Nat

/-- Go's `readFloat`: `none` where Go returns `ok = false`. -/
def readFloat (s : List Char) : Option Scanned :=
  match s with
  | [] => none
  | c :: t =>
    -- optional sign
    let neg := c = '-'
    let s1 := if c = '+' ∨ c = '-' then t else s
    -- base prefix: at least one character has to follow it
    let hex := match s1 with
      | c0 :: c1 :: _ :: _ => c0 = '0' ∧ (c1 = 'x' ∨ c1 = 'X')
      | _ => false
    let s2 := if hex then s1.drop 2 else s1
    let (st, s3) := readDigits hex s2 ⟨false, false, false, 0, 0, 0⟩
    if ¬ st.sawdigits then none
    else
      let dp : Int := if st.sawdot then st.dp else st.nd
      let dp : Int := if hex then dp * 4 else dp
      let ndMant : Int := if hex then st.nd * 4 else st.nd
      -- optional exponent moves the decimal point
      let isExpChar (c : Char) : Bool := if hex then c = 'p' ∨ c = 'P' else c = 'e' ∨ c = 'E'
      let finish (dp : Int) (underscores : Bool) (rest : List Char) : Option Scanned :=
        let exp : Int := if st.mantissa ≠ 0 then dp - ndMant else 0
        let n := s.length - rest.length
        if underscores ∧ ¬ underscoreOK (s.take n) then none
        else some ⟨neg, hex, st.mantissa, exp, n⟩
      match s3 with
      | c :: s4 =>
        if isExpChar c then
          match s4 with
          | [] => none
          | d :: s5 =>
            let esign : Int := if d = '-' then -1 else 1
            let s6 := if d = '+' ∨ d = '-' then s5 else s4
            match s6 with
            | [] => none
            | d1 :: _ =>
              if ¬ ('0' ≤ d1 ∧ d1 ≤ '9') then none
              else
                let (e, u, rest) := readExp s6 0 st.underscores
                finish (dp + e * esign) u rest
        else if hex then none  -- a hexadecimal mantissa must have an exponent
        else finish dp st.underscores s3
      | [] => if hex then none else finish dp st.underscores s3

/-- The value `mantissa * base^exp` of a scanned text as a fraction. -/
def Scanned.fraction (x : Scanned) : Nat × Nat :=
  let b : Nat := if x.hex then 2 else 10
  (x.mantissa * b ^ x.exp.toNat, b ^ (-x.exp).toNat)

/-- Go's `atof64` (behind `parseFloatPrefix`): the special values first, then the scanned
number rounded to the nearest `float64`. Returns the value, the number of characters
consumed and the error. -/
def atof64 (str : String) : float64 × Nat × Option NumError :=
  let s := str.toList
  match special s with
  | some (val, n) => (val, n, none)
  | none =>
    match readFloat s with
    | none => (float64.zero, 0, some (syntaxError "ParseFloat" str))
    | some x =>
      match float64.round x.fraction.1 x.fraction.2 with
      | some (m, e) => (float64.num x.neg m e, x.n, none)
      | none => (float64.Inf x.neg, x.n, some (rangeError "ParseFloat" str))

/-- Go's `strconv.ParseFloat(s, 64)`: the whole of `s` has to be consumed. -/
def ParseFloat (s : String) : Except NumError float64 :=
  match atof64 s with
  | (f, n, err) =>
    if n ≠ s.toList.length ∧ (err.isNone ∨ err.map (·.Err) ≠ some Err.ErrSyntax) then
      .error (syntaxError "ParseFloat" s)
    else
      match err with
      | none => .ok f
      | some e => .error e

end strconv

/-! ## The account record -/

/-- The asset of the contract: `type Account struct` with its six text fields and two
numeric fields. -/
structure Account where
  DealerID : String
  MSISDN : String
  MPIN : String
  Balance : float64
  Status : String
  TransAmount : float64
  TransType : String
  Remarks : String
deriving DecidableEq, Repr

/-- The zero value of `Account` (what `var account Account` declares). -/
def Account.zero : Account := ⟨"", "", "", float64.zero, "", float64.zero, "", ""⟩

/-! ## encoding/json -/

namespace json

/-- The errors of package `encoding/json` that `Marshal` and `Unmarshal` return here:
`*UnsupportedValueError` (its `Str`), `*SyntaxError`, and `*UnmarshalTypeError`
(its `Value` and `Field`). -/
inductive Error where
  | UnsupportedValueError (str : String)
  | SyntaxError
  | UnmarshalTypeError (value : String) (field : String)
deriving DecidableEq, Repr

/-! ### Encoding -/

/-- The sixteen characters of Go's `hex` table. -/
def hexDigit (n : Nat) : Char :=
  if n < 10 then Char.ofNat (48 + n) else Char.ofNat (87 + n)

/-- One character of a string as `appendString` writes it with HTML escaping on:
quote and backslash get a backslash, the five short escapes, `\u00XX` for the other
control characters and for `<`, `>`, `&`, ` `, ` ` for the two separators,
every other character as it is. -/
def encodeChar (c : Char) : List Char :=
  if c = '\\' ∨ c = '"' then ['\\', c]
  else if c.toNat = 8 then ['\\', 'b']
  else if c.toNat = 12 then ['\\', 'f']
  else if c = '\n' then ['\\', 'n']
  else if c = '\r' then ['\\', 'r']
  else if c = '\t' then ['\\', 't']
  else if c.toNat < 32 ∨ c = '<' ∨ c = '>' ∨ c = '&' then
    ['\\', 'u', '0', '0', hexDigit (c.toNat / 16), hexDigit (c.toNat % 16)]
  else if c.toNat = 8232 ∨ c.toNat = 8233 then
    ['\\', 'u', '2', '0', '2', hexDigit (c.toNat % 16)]
  else [c]

/-- A Go string as a JSON string literal. -/
def encodeString (s : String) : List Char :=
  '"' :: (s.toList.flatMap encodeChar ++ ['"'])

/-- The decimal digits of `n`, most significant first, at most `fuel` of them. -/
def natDigits : Nat → Nat → List Char
  | 0, _ => []
  | fuel + 1, n =>
    if n < 10 then [Char.ofNat (48 + n)]
    else natDigits fuel (n / 10) ++ [Char.ofNat (48 + n % 10)]

/-- The decimal point position of the positive fraction `n / d`: the least `dp` with
`n / d < 10^dp`, searched upwards from `dp`. -/
def pointUp : Nat → Nat → Nat → Int → Int
  | 0, _, _, dp => dp
  | fuel + 1, n, d, dp =>
    if n * 10 ^ (-dp).toNat < d * 10 ^ dp.toNat then dp else pointUp fuel n d (dp + 1)

/-- The least `dp` with `n / d < 10^dp`, searched downwards from `dp`. -/
def pointDown : Nat → Nat → Nat → Int → Int
  | 0, _, _, dp => dp
  | fuel + 1, n, d, dp =>
    if n * 10 ^ (-(dp - 1)).toNat < d * 10 ^ (dp - 1).toNat then pointDown fuel n d (dp - 1)
    else dp

/-- Removes the trailing zeros of a digit count: `(digits, number removed)`. -/
def trimZeros : Nat → Nat → Nat × Nat
  | 0, n => (n, 0)
  | fuel + 1, n =>
    if n ≠ 0 ∧ n % 10 = 0 then ((trimZeros fuel (n / 10)).1, (trimZeros fuel (n / 10)).2 + 1)
    else (n, 0)

/-- The shortest decimal that reads back as the same `float64` (`strconv`'s shortest
formatting, precision `-1`): for the positive value `mant * 2^exp`, the digits as a number
`D` and the decimal point position `dp`, the value printed being `0.D * 10^dp`.
The search is over the number of digits `k = 17 - fuel + 1, ...`: with `k` digits the
value is cut to `D` (rounding down) or `D + 1` (rounding up); either is taken when it lies
in the rounding interval of the value, the nearer one (ties to even) when both do. -/
def shortestFrom (n d : Nat) (lo hi : Nat × Nat) (inclusive : Bool) (dp : Int) :
    Nat → Nat → Nat × Int
  | 0, k => ((n * 10 ^ (k - dp).toNat) / (d * 10 ^ (dp - k).toNat), dp)
  | fuel + 1, k =>
    -- value / 10^(dp - k) = sn / sd
    let sn := n * 10 ^ ((k : Int) - dp).toNat
    let sd := d * 10 ^ (dp - (k : Int)).toNat
    let D := sn / sd
    let R := sn % sd
    -- D and D + 1 at the scale of the interval bounds: x * 10^(dp-k) against a / b
    let ge (x : Nat) (b : Nat × Nat) : Bool :=
      b.1 * 10 ^ ((k : Int) - dp).toNat ≤ x * 10 ^ (dp - (k : Int)).toNat * b.2
    let le (x : Nat) (b : Nat × Nat) : Bool :=
      x * 10 ^ (dp - (k : Int)).toNat * b.2 ≤ b.1 * 10 ^ ((k : Int) - dp).toNat
    let okdown : Bool := if inclusive then ge D lo else ¬ le D lo
    let okup : Bool := if inclusive then le (D + 1) hi else ¬ ge (D + 1) hi
    let up : Bool := sd < 2 * R ∨ (2 * R = sd ∧ D % 2 = 1)
    if okdown ∧ okup then
      if up then (if D + 1 = 10 ^ k then (1, dp + 1) else (D + 1, dp)) else (D, dp)
    else if okdown then (D, dp)
    else if okup then (if D + 1 = 10 ^ k then (1, dp + 1) else (D + 1, dp))
    else shortestFrom n d lo hi inclusive dp fuel (k + 1)

/-- Shortest digits of the positive finite value `mant * 2^exp` (`mant` odd): the digit
string without trailing zeros and the decimal point position. -/
def shortest (mant : Nat) (exp : Int) : List Char × Int :=
  let n := mant * 2 ^ exp.toNat
  let d := 2 ^ (-exp).toNat
  -- the unit in the last place is 2^q
  let top : Int := (float64.bitLen mant mant : Int) - 1 + exp
  let q : Int := max (top - 52) (-1074)
  -- half a unit up; half a unit down, a quarter of a unit below a power of two
  let hi : Nat × Nat := (n * 2 ^ (-(q - 1)).toNat + d * 2 ^ (q - 1).toNat,
                         d * 2 ^ (-(q - 1)).toNat)
  let narrow : Bool := mant = 1 ∧ -1074 < q
  let w : Int := if narrow then q - 2 else q - 1
  let lo : Nat × Nat := (n * 2 ^ (-w).toNat - d * 2 ^ w.toNat, d * 2 ^ (-w).toNat)
  let inclusive : Bool := q < exp
  let dp : Int := if d ≤ n then pointUp 400 n d 1 else pointDown 400 n d 0
  let r := shortestFrom n d lo hi inclusive dp 17 1
  let t := trimZeros 20 r.1
  (natDigits 20 t.1, r.2)

/-- Go's `%e` layout with the shortest digits (`fmtE`, precision `nd - 1`) followed by the
clean-up of the encoder (`e-09` becomes `e-9`). -/
def fmtE (digs : List Char) (dp : Int) : List Char :=
  let first := digs.take 1
  let more := digs.drop 1
  let exp : Int := dp - 1
  let sign : Char := if exp < 0 then '-' else '+'
  let e : Nat := exp.natAbs
  let ed : List Char :=
    if e < 10 then ['0', Char.ofNat (48 + e)]
    else if e < 100 then [Char.ofNat (48 + e / 10), Char.ofNat (48 + e % 10)]
    else [Char.ofNat (48 + e / 100), Char.ofNat (48 + e / 10 % 10), Char.ofNat (48 + e % 10)]
  let ed := match ed with
    | ['0', x] => [x]
    | _ => ed
  first ++ (if more.isEmpty then [] else '.' :: more) ++ ['e', sign] ++ ed

/-- Go's `%f` layout with the shortest digits (`fmtF`, precision `max (nd - dp) 0`). -/
def fmtF (digs : List Char) (dp : Int) : List Char :=
  let nd : Int := digs.length
  let intPart : List Char :=
    if 0 < dp then digs.take dp.toNat ++ List.replicate (dp - nd).toNat '0' else ['0']
  let frac : List Char :=
    if dp < nd then
      '.' :: (List.replicate (-dp).toNat '0' ++ digs.drop dp.toNat)
    else []
  intPart ++ frac

/-- The float encoder of `encoding/json`: NaN and the infinities are unsupported values;
a finite value is written like an ES6 number, in exponent form when its magnitude is
below `1e-6` or at least `1e21`. -/
def encodeFloat : float64 → Except Error (List Char)
  | .NaN => .error (.UnsupportedValueError "NaN")
  | .Inf false => .error (.UnsupportedValueError "+Inf")
  | .Inf true => .error (.UnsupportedValueError "-Inf")
  | .num neg mant exp =>
    let sign : List Char := if neg then ['-'] else []
    if mant = 0 then .ok (sign ++ ['0'])
    else
      let n := mant * 2 ^ exp.toNat
      let d := 2 ^ (-exp).toNat
      -- abs < 1e-6 (the float64 nearest to it) or abs >= 1e21
      let small : Bool := n * 2 ^ 72 < d * 4722366482869645
      let big : Bool := d * 10 ^ 21 ≤ n
      let (digs, dp) := shortest mant exp
      .ok (sign ++ (if small ∨ big then fmtE digs dp else fmtF digs dp))

end json

namespace json

/-- Go's `json.Marshal(account)`: the object with the eight fields in declaration order
under their `json:"..."` tags, text fields as JSON strings and numeric fields as JSON
numbers; it fails on the first numeric field that is NaN or infinite. -/
def Marshal (a : Account) : Except Error String :=
  match encodeFloat a.Balance with
  | .error e => .error e
  | .ok balance =>
    match encodeFloat a.TransAmount with
    | .error e => .error e
    | .ok transAmount =>
      .ok (String.mk (
        "\x7b\"DEALERID\":".toList ++ encodeString a.DealerID ++
        ",\"MSISDN\":".toList ++ encodeString a.MSISDN ++
        ",\"MPIN\":".toList ++ encodeString a.MPIN ++
        ",\"BALANCE\":".toList ++ balance ++
        ",\"STATUS\":".toList ++ encodeString a.Status ++
        ",\"TRANSAMOUNT\":".toList ++ transAmount ++
        ",\"TRANSTYPE\":".toList ++ encodeString a.TransType ++
        ",\"REMARKS\":".toList ++ encodeString a.Remarks ++ "\x7d".toList))

/-! ### Decoding -/

/-- A JSON document as the scanner of `encoding/json` reads it; a number keeps its
literal text, an object its members in order. -/
inductive Value where
  | null : Value
  | bool (b : Bool) : Value
  | number (lit : String) : Value
  | string (s : String) : Value
  | array (elems : List Value) : Value
  | object (members : List (String × Value)) : Value
deriving Repr

/-- JSON white space. -/
def isSpace (c : Char) : Bool := c = ' ' ∨ c = '\t' ∨ c = '\r' ∨ c = '\n'

def skipSpace : List Char → List Char
  | [] => []
  | c :: cs => if isSpace c then skipSpace cs else c :: cs

/-- Value of a hexadecimal digit. -/
def hexVal (c : Char) : Option Nat :=
  if '0' ≤ c ∧ c ≤ '9' then some (c.toNat - 48)
  else if 'a' ≤ c ∧ c ≤ 'f' then some (c.toNat - 87)
  else if 'A' ≤ c ∧ c ≤ 'F' then some (c.toNat - 55)
  else none

/-- Go's `getu4` on the four characters after a backslash and `u`. -/
def getu4 (a b c d : Char) : Option Nat :=
  match hexVal a, hexVal b, hexVal c, hexVal d with
  | some x, some y, some z, some w => some (((x * 16 + y) * 16 + z) * 16 + w)
  | _, _, _, _ => none

/-- The character of a one-letter escape. -/
def unescape (c : Char) : Option Char :=
  if c = '"' ∨ c = '\\' ∨ c = '/' then some c
  else if c = 'b' then some (Char.ofNat 8)
  else if c = 'f' then some (Char.ofNat 12)
  else if c = 'n' then some '\n'
  else if c = 'r' then some '\r'
  else if c = 't' then some '\t'
  else none

/-- The Unicode replacement character U+FFFD. -/
def replacementChar : Char := Char.ofNat 65533

/-- Reads a string literal after its opening quote and unquotes it (Go's scanner and
`unquote`). `hi` is a high surrogate read from a `\u` escape and waiting for its low
half; a surrogate without its partner becomes U+FFFD. `acc` is the text so far, reversed.
Returns the text and the input after the closing quote. -/
def scanString : List Char → Option Nat → List Char → Option (String × List Char)
  | [], _, _ => none
  | c :: cs, hi, acc =>
    let acc1 := if hi.isSome then replacementChar :: acc else acc
    if c = '"' then some (String.mk acc1.reverse, cs)
    else if c = '\\' then
      match cs with
      | [] => none
      | e :: rest =>
        if e = 'u' then
          match rest with
          | a :: b :: c4 :: d :: rest2 =>
            match getu4 a b c4 d with
            | none => none
            | some rr =>
              if 55296 ≤ rr ∧ rr < 56320 then scanString rest2 (some rr) acc1
              else if 56320 ≤ rr ∧ rr < 57344 then
                match hi with
                | some h =>
                  scanString rest2 none
                    (Char.ofNat ((h - 55296) * 1024 + (rr - 56320) + 65536) :: acc)
                | none => scanString rest2 none (replacementChar :: acc)
              else scanString rest2 none (Char.ofNat rr :: acc1)
          | _ => none
        else
          match unescape e with
          | some ch => scanString rest none (ch :: acc1)
          | none => none
    else if c.toNat < 32 then none
    else scanString cs none (c :: acc1)

/-- The longest run of decimal digits at the head of the input, and the rest. -/
def scanDigits : List Char → List Char × List Char
  | [] => ([], [])
  | c :: cs =>
    if '0' ≤ c ∧ c ≤ '9' then ((c :: (scanDigits cs).1), (scanDigits cs).2) else ([], c :: cs)

/-- The integer part of a JSON number: `0`, or a run of digits that does not start
with `0`. -/
def scanInt : List Char → Option (List Char × List Char)
  | [] => none
  | c :: t =>
    if c = '0' then some (['0'], t)
    else if '1' ≤ c ∧ c ≤ '9' then some (c :: (scanDigits t).1, (scanDigits t).2)
    else none

/-- The optional fraction of a JSON number: a point and at least one digit. -/
def scanFrac : List Char → Option (List Char × List Char)
  | [] => some ([], [])
  | c :: t =>
    if c = '.' then
      if (scanDigits t).1.isEmpty then none else some ('.' :: (scanDigits t).1, (scanDigits t).2)
    else some ([], c :: t)

/-- The optional exponent of a JSON number: `e` or `E`, an optional sign and at least
one digit. -/
def scanExp : List Char → Option (List Char × List Char)
  | [] => some ([], [])
  | c :: t =>
    if c = 'e' ∨ c = 'E' then
      let (es, t1) := match t with
        | d :: t2 => if d = '+' ∨ d = '-' then ([d], t2) else ([], t)
        | [] => ([], t)
      if (scanDigits t1).1.isEmpty then none
      else some (c :: (es ++ (scanDigits t1).1), (scanDigits t1).2)
    else some ([], c :: t)

/-- Reads a JSON number: optional minus, integer part, optional fraction, optional
exponent. Returns the literal and the rest. -/
def scanNumber (cs : List Char) : Option (String × List Char) :=
  let (sign, s1) := match cs with
    | c :: t => if c = '-' then (['-'], t) else ([], cs)
    | [] => ([], cs)
  match scanInt s1 with
  | none => none
  | some (ip, s2) =>
    match scanFrac s2 with
    | none => none
    | some (fp, s3) =>
      match scanExp s3 with
      | none => none
      | some (ep, s4) => some (String.mk (sign ++ ip ++ fp ++ ep), s4)

/-- Strips the literal `lit` from the head of the input. -/
def scanLiteral (lit : List Char) (cs : List Char) : Option (List Char) :=
  if lit.isPrefixOf cs then some (cs.drop lit.length) else none

mutual
/-- Reads one JSON value at the head of the input (no leading white space). `depth` is
the number of arrays and objects that may still be opened (Go allows a nesting of 10000),
`gas` bounds the chain of calls and is taken larger than the input is long. -/
def parseValue : Nat → Nat → List Char → Option (Value × List Char)
  | 0, _, _ => none
  | gas + 1, depth, cs =>
    match cs with
    | [] => none
    | c :: rest =>
      if c = '"' then
        match scanString rest none [] with
        | some (s, r) => some (.string s, r)
        | none => none
      else if c = '[' then
        if depth = 0 then none
        else
          match skipSpace rest with
          | [] => none
          | c1 :: r1 =>
            if c1 = ']' then some (.array [], r1)
            else
              match parseElems gas (depth - 1) (c1 :: r1) with
              | some (vs, r) => some (.array vs, r)
              | none => none
      else if c = Char.ofNat 123 then
        if depth = 0 then none
        else
          match skipSpace rest with
          | [] => none
          | c1 :: r1 =>
            if c1 = Char.ofNat 125 then some (.object [], r1)
            else
              match parseMembers gas (depth - 1) (c1 :: r1) with
              | some (ms, r) => some (.object ms, r)
              | none => none
      else if c = 't' then (scanLiteral "true".toList cs).map (fun r => (.bool true, r))
      else if c = 'f' then (scanLiteral "false".toList cs).map (fun r => (.bool false, r))
      else if c = 'n' then (scanLiteral "null".toList cs).map (fun r => (.null, r))
      else
        match scanNumber cs with
        | some (lit, r) => some (.number lit, r)
        | none => none
/-- Reads the elements of an array from the first element on, up to and including the
closing bracket. -/
def parseElems : Nat → Nat → List Char → Option (List Value × List Char)
  | 0, _, _ => none
  | gas + 1, depth, cs =>
    match parseValue gas depth cs with
    | none => none
    | some (v, r) =>
      match skipSpace r with
      | [] => none
      | c :: r1 =>
        if c = ',' then
          match parseElems gas depth (skipSpace r1) with
          | some (vs, r2) => some (v :: vs, r2)
          | none => none
        else if c = ']' then some ([v], r1)
        else none
/-- Reads the members of an object from the first key on, up to and including the
closing brace. -/
def parseMembers : Nat → Nat → List Char → Option (List (String × Value) × List Char)
  | 0, _, _ => none
  | gas + 1, depth, cs =>
    match cs with
    | [] => none
    | q :: r0 =>
      if q ≠ '"' then none
      else
        match scanString r0 none [] with
        | none => none
        | some (k, r1) =>
          match skipSpace r1 with
          | [] => none
          | colon :: r2 =>
            if colon ≠ ':' then none
            else
              match parseValue gas depth (skipSpace r2) with
              | none => none
              | some (v, r3) =>
                match skipSpace r3 with
                | [] => none
                | c :: r4 =>
                  if c = ',' then
                    match parseMembers gas depth (skipSpace r4) with
                    | some (ms, r5) => some ((k, v) :: ms, r5)
                    | none => none
                  else if c = Char.ofNat 125 then some ([(k, v)], r4)
                  else none
end

/-- The syntax check and scan of `Unmarshal`: one JSON value, white space allowed around
it, nothing else. -/
def parse (data : String) : Option Value :=
  match parseValue (data.toList.length + 1) 10000 (skipSpace data.toList) with
  | some (v, r) => if (skipSpace r).isEmpty then some v else none
  | none => none

end json

namespace json

/-- The fields of `Account` that `Unmarshal` can address. -/
inductive Field where
  | DealerID | MSISDN | MPIN | Balance | Status | TransAmount | TransType | Remarks
deriving DecidableEq, Repr

/-- The JSON name of each field, from its struct tag. -/
def fields : List (String × Field) :=
  [("DEALERID", .DealerID), ("MSISDN", .MSISDN), ("MPIN", .MPIN), ("BALANCE", .Balance),
   ("STATUS", .Status), ("TRANSAMOUNT", .TransAmount), ("TRANSTYPE", .TransType),
   ("REMARKS", .Remarks)]

/-- Simple case folding of one character of a key, as far as it can meet the ASCII
letters of the tags: upper case to lower case, and the two characters that fold to
`s` and `k` (U+017F, U+212A). -/
def foldChar (c : Char) : Char :=
  if 'A' ≤ c ∧ c ≤ 'Z' then Char.ofNat (c.toNat + 32)
  else if c.toNat = 383 then 's'
  else if c.toNat = 8490 then 'k'
  else c

def foldName (s : String) : List Char := s.toList.map foldChar

/-- The field a JSON key addresses: the one whose name is the key exactly, else the
one whose name equals it under case folding. -/
def findField (key : String) : Option Field :=
  match fields.find? (fun p => p.1 = key) with
  | some p => some p.2
  | none =>
    match fields.find? (fun p => foldName p.1 = foldName key) with
    | some p => some p.2
    | none => none

/-- What an `UnmarshalTypeError` calls a JSON value. -/
def describe : Value → String
  | .null => "null"
  | .bool _ => "bool"
  | .number _ => "number"
  | .string _ => "string"
  | .array _ => "array"
  | .object _ => "object"

def setText (a : Account) (f : Field) (s : String) : Account :=
  match f with
  | .DealerID => { a with DealerID := s }
  | .MSISDN => { a with MSISDN := s }
  | .MPIN => { a with MPIN := s }
  | .Status => { a with Status := s }
  | .TransType => { a with TransType := s }
  | .Remarks => { a with Remarks := s }
  | _ => a

def setNumber (a : Account) (f : Field) (x : float64) : Account :=
  match f with
  | .Balance => { a with Balance := x }
  | .TransAmount => { a with TransAmount := x }
  | _ => a

/-- Stores one member of the object into the record: an unknown key is skipped, `null`
leaves the field as it is, a value of the wrong kind (or a number out of range) is a type
error that does not stop the decoding. The state is the record and the first error. -/
def storeMember (st : Account × Option Error) (m : String × Value) : Account × Option Error :=
  match findField m.1 with
  | none => st
  | some f =>
    let name := match fields.find? (fun p => p.2 = f) with
      | some p => p.1
      | none => ""
    let fail (what : String) : Account × Option Error :=
      (st.1, if st.2.isSome then st.2 else some (.UnmarshalTypeError what name))
    match m.2 with
    | .null => st
    | .string s =>
      if f = .Balance ∨ f = .TransAmount then fail "string" else (setText st.1 f s, st.2)
    | .number lit =>
      if f = .Balance ∨ f = .TransAmount then
        match strconv.ParseFloat lit with
        | .ok x => (setNumber st.1 f x, st.2)
        | .error _ => fail ("number " ++ lit)
      else fail "number"
    | v => fail (describe v)

/-- Go's `json.Unmarshal(data, &account)` with `account` a zero `Account`: a syntax error
for a text that is not one JSON value, a type error for a value other than an object or
`null`, else the members stored in order. -/
def Unmarshal (data : String) : Except Error Account :=
  match parse data with
  | none => .error .SyntaxError
  | some .null => .ok Account.zero
  | some (.object ms) =>
    match ms.foldl storeMember (Account.zero, none) with
    | (a, none) => .ok a
    | (_, some e) => .error e
  | some v => .error (.UnmarshalTypeError (describe v) "")

/-- A Go value of type `interface{}` as `Unmarshal` produces it, or as the contract
assigns it: `nil`, `bool`, `float64`, `string`, `[]interface{}`, `map[string]interface{}`. -/
inductive Any where
  | nil : Any
  | bool (b : Bool) : Any
  | float64 (x : float64) : Any
  | string (s : String) : Any
  | slice (elems : List Any) : Any
  | map (entries : List (String × Any)) : Any
deriving Repr

/-- Assignment `m[k] = v` on a map kept as a list of entries with distinct keys. -/
def mapSet (m : List (String × Any)) (k : String) (v : Any) : List (String × Any) :=
  match m with
  | [] => [(k, v)]
  | e :: t => if e.1 = k then (k, v) :: t else e :: mapSet t k v

mutual
/-- The Go value of a JSON value decoded into an `interface{}`, with the first
conversion error (a number that `float64` cannot hold). -/
def Value.toAny : Value → Any × Option Error
  | .null => (.nil, none)
  | .bool b => (.bool b, none)
  | .number lit =>
    match strconv.ParseFloat lit with
    | .ok x => (.float64 x, none)
    | .error _ => (.nil, some (.UnmarshalTypeError ("number " ++ lit) ""))
  | .string s => (.string s, none)
  | .array vs => ((Value.toAnyList vs).1, (Value.toAnyList vs).2)
  | .object ms => (.map (Value.toAnyMap ms []).1, (Value.toAnyMap ms []).2)
def Value.toAnyList : List Value → Any × Option Error
  | [] => (.slice [], none)
  | v :: vs =>
    let a := Value.toAny v
    let r := Value.toAnyList vs
    (match r.1 with
      | .slice xs => .slice (a.1 :: xs)
      | x => x,
     if a.2.isSome then a.2 else r.2)
def Value.toAnyMap : List (String × Value) → List (String × Any) → List (String × Any) × Option Error
  | [], acc => (acc, none)
  | (k, v) :: ms, acc =>
    let a := Value.toAny v
    let r := Value.toAnyMap ms (mapSet acc k a.1)
    (r.1, if a.2.isSome then a.2 else r.2)
end

/-- Go's `json.Unmarshal(data, &value)` with `value` a nil `interface{}`. -/
def UnmarshalAny (data : String) : Except Error Any :=
  match parse data with
  | none => .error .SyntaxError
  | some v =>
    match v.toAny with
    | (a, none) => .ok a
    | (_, some e) => .error e

end json

/-! ## The ledger stub -/

/-- A ledger timestamp (seconds and nanoseconds), carried through unchanged. -/
structure Timestamp where
  Seconds : Int
  Nanos : Int
deriving DecidableEq, Repr

/-- One entry of the history of a key, as the history iterator yields it
(`queryresult.KeyModification`). -/
structure KeyModification where
  TxId : String
  Value : String
  Timestamp : Timestamp
  IsDelete : Bool
deriving DecidableEq, Repr

/-- The errors with which the ledger answers instead of serving a call: per key for
`GetState`, per key and value for `PutState`, per key for `GetHistoryForKey`, and per key
and position for the `Next` of a history iterator. `none` means the call is served. -/
structure Faults where
  getState : String → Option String
  putState : String → String → Option String
  getHistoryForKey : String → Option String
  next : String → Nat → Option String

/-- The ledger behind the stub: the world state (the first binding of a key is its
value), the log of the writes of every key in the order they were made, the order in which
a history iterator walks that log, and the errors the ledger answers with. A write
changes the world state and the log only; the errors are part of the ledger state and
stay as they are until a run sets them anew for a transaction (`Invocation.faults`). -/
structure Ledger where
  state : List (String × String)
  log : List (String × KeyModification)
  newestFirst : Bool
  faults : Faults

/-- The ledger that serves every call. -/
def Faults.none : Faults := ⟨fun _ => .none, fun _ _ => .none, fun _ => .none, fun _ _ => .none⟩

/-- The empty store: no value and no history for any key. -/
def Ledger.empty (newestFirst : Bool) (faults : Faults) : Ledger := ⟨[], [], newestFirst, faults⟩

/-- The stub of one transaction: the transaction's id and timestamp and the ledger it
runs against. -/
structure ChaincodeStub where
  TxID : String
  TxTimestamp : Timestamp
  ledger : Ledger

/-- The transaction context handed to every contract function. -/
structure TransactionContext where
  stub : ChaincodeStub

def TransactionContext.GetStub (ctx : TransactionContext) : ChaincodeStub := ctx.stub

/-- The context of a transaction `txID` at `ts` on ledger `l`. -/
def TransactionContext.on (txID : String) (ts : Timestamp) (l : Ledger) : TransactionContext :=
  ⟨⟨txID, ts, l⟩⟩

namespace ChaincodeStub

/-- The stub's `GetState(key)`: the stored value, `none` (Go's `nil`) when the key has
none, or the ledger's error. -/
def GetState (stub : ChaincodeStub) (key : String) : Except String (Option String) :=
  match stub.ledger.faults.getState key with
  | some e => .error e
  | none => .ok (stub.ledger.state.lookup key)

/-- The stub's `PutState(key, value)`: on success the value is the key's stored value and
one entry is added to the key's history; on error the ledger is as it was. -/
def PutState (stub : ChaincodeStub) (key : String) (value : String) : Except String Ledger :=
  match stub.ledger.faults.putState key value with
  | some e => .error e
  | none =>
    .ok { stub.ledger with
          state := (key, value) :: stub.ledger.state,
          log := stub.ledger.log ++ [(key, ⟨stub.TxID, value, stub.TxTimestamp, false⟩)] }

/-- The history entries of a key in the order of the ledger's iterator. -/
def historyOf (l : Ledger) (key : String) : List KeyModification :=
  let entries := (l.log.filter (fun e => e.1 = key)).map (fun e => e.2)
  if l.newestFirst then entries.reverse else entries

/-- What the successive calls of `Next` return on a history iterator: the entries, or
the ledger's error at a position. -/
def nextResults (l : Ledger) (key : String) : Nat → List KeyModification → List (Except String KeyModification)
  | _, [] => []
  | i, h :: hs =>
    (match l.faults.next key i with
      | some e => .error e
      | none => .ok h) :: nextResults l key (i + 1) hs

/-- The stub's `GetHistoryForKey(key)`: an iterator, given by the results of its `Next`
calls (`HasNext` holds while results remain), or the ledger's error. -/
def GetHistoryForKey (stub : ChaincodeStub) (key : String) :
    Except String (List (Except String KeyModification)) :=
  match stub.ledger.faults.getHistoryForKey key with
  | some e => .error e
  | none => .ok (nextResults stub.ledger key 0 (historyOf stub.ledger key))

end ChaincodeStub

/-! ## The contract -/

/-- The `error` values the contract returns, one constructor per place they come from. -/
inductive Error where
  /-- `fmt.Errorf("account %s already exists", key)` -/
  | alreadyExists (key : String)
  /-- `fmt.Errorf("invalid balance: %v", err)` -/
  | invalidBalance (err : strconv.NumError)
  /-- `fmt.Errorf("invalid transAmount: %v", err)` -/
  | invalidTransAmount (err : strconv.NumError)
  /-- `fmt.Errorf("failed to read from world state: %v", err)` -/
  | readFailed (err : String)
  /-- `fmt.Errorf("account %s does not exist", key)` -/
  | doesNotExist (key : String)
  /-- an error of the stub returned as it is -/
  | stub (err : String)
  /-- an error of `encoding/json` returned as it is -/
  | json (err : json.Error)
deriving DecidableEq, Repr

/-- One record of the result of `GetAccountHistory`: the map with the keys `TxId`,
`Timestamp`, `IsDelete`, `Value`. -/
structure HistoryRecord where
  TxId : String
  Timestamp : Timestamp
  IsDelete : Bool
  Value : json.Any

/-- `AccountExists` returns true when account with given key exists in world state. -/
def AccountExists (ctx : TransactionContext) (key : String) : Except Error Bool :=
  match ctx.GetStub.GetState key with
  | .error err => .error (.stub err)
  | .ok data => .ok data.isSome

/-- `CreateAccount` creates a new account asset. Returns the error (or success) and the
ledger after the call. -/
def CreateAccount (ctx : TransactionContext) (key : String)
    (dealerID msisdn mpin balanceStr status transAmountStr transType remarks : String) :
    Except Error Unit × Ledger :=
  match AccountExists ctx key with
  | .error err => (.error err, ctx.GetStub.ledger)
  | .ok exists_ =>
    if exists_ then (.error (.alreadyExists key), ctx.GetStub.ledger)
    else
      match strconv.ParseFloat balanceStr with
      | .error err => (.error (.invalidBalance err), ctx.GetStub.ledger)
      | .ok balance =>
        match strconv.ParseFloat transAmountStr with
        | .error err => (.error (.invalidTransAmount err), ctx.GetStub.ledger)
        | .ok transAmount =>
          let account : Account :=
            { DealerID := dealerID, MSISDN := msisdn, MPIN := mpin, Balance := balance,
              Status := status, TransAmount := transAmount, TransType := transType,
              Remarks := remarks }
          match json.Marshal account with
          | .error err => (.error (.json err), ctx.GetStub.ledger)
          | .ok accountBytes =>
            match ctx.GetStub.PutState key accountBytes with
            | .error err => (.error (.stub err), ctx.GetStub.ledger)
            | .ok l => (.ok (), l)

/-- `ReadAccount` returns the account stored in the world state. -/
def ReadAccount (ctx : TransactionContext) (key : String) : Except Error Account :=
  match ctx.GetStub.GetState key with
  | .error err => .error (.readFailed err)
  | .ok none => .error (.doesNotExist key)
  | .ok (some data) =>
    match json.Unmarshal data with
    | .error err => .error (.json err)
    | .ok account => .ok account

/-- The update of `account.Balance` in `UpdateAccount`: a non-empty text is parsed and
replaces the field; a text that does not parse ends the call with its error. -/
def UpdateAccount.setBalance (account : Account) (balanceStr : String) : Except Error Account :=
  if balanceStr ≠ "" then
    match strconv.ParseFloat balanceStr with
    | .error err => .error (.invalidBalance err)
    | .ok b => .ok { account with Balance := b }
  else .ok account

/-- The update of `account.TransAmount` in `UpdateAccount`. -/
def UpdateAccount.setTransAmount (account : Account) (transAmountStr : String) :
    Except Error Account :=
  if transAmountStr ≠ "" then
    match strconv.ParseFloat transAmountStr with
    | .error err => .error (.invalidTransAmount err)
    | .ok ta => .ok { account with TransAmount := ta }
  else .ok account

/-- The field updates of `UpdateAccount` between the read and the write: every non-empty
argument replaces its field, in the order of the source. -/
def UpdateAccount.merge (account : Account)
    (dealerID msisdn mpin balanceStr status transAmountStr transType remarks : String) :
    Except Error Account :=
  let account := if dealerID ≠ "" then { account with DealerID := dealerID } else account
  let account := if msisdn ≠ "" then { account with MSISDN := msisdn } else account
  let account := if mpin ≠ "" then { account with MPIN := mpin } else account
  match UpdateAccount.setBalance account balanceStr with
  | .error err => .error err
  | .ok account =>
    let account := if status ≠ "" then { account with Status := status } else account
    match UpdateAccount.setTransAmount account transAmountStr with
    | .error err => .error err
    | .ok account =>
      let account := if transType ≠ "" then { account with TransType := transType } else account
      let account := if remarks ≠ "" then { account with Remarks := remarks } else account
      .ok account

/-- `UpdateAccount` updates fields of an account; empty strings are passed for the fields
that are not to change. Returns the error (or success) and the ledger after the call. -/
def UpdateAccount (ctx : TransactionContext) (key : String)
    (dealerID msisdn mpin balanceStr status transAmountStr transType remarks : String) :
    Except Error Unit × Ledger :=
  match ReadAccount ctx key with
  | .error err => (.error err, ctx.GetStub.ledger)
  | .ok account =>
    match UpdateAccount.merge account dealerID msisdn mpin balanceStr status transAmountStr
        transType remarks with
    | .error err => (.error err, ctx.GetStub.ledger)
    | .ok account =>
      match json.Marshal account with
      | .error err => (.error (.json err), ctx.GetStub.ledger)
      | .ok bytes =>
        match ctx.GetStub.PutState key bytes with
        | .error err => (.error (.stub err), ctx.GetStub.ledger)
        | .ok l => (.ok (), l)

/-- The `Value` of a history record: nothing for an entry without bytes, the decoded
JSON value, or the bytes as a string when they do not decode. -/
def GetAccountHistory.value (h : KeyModification) : json.Any :=
  if h.Value.length > 0 then
    match json.UnmarshalAny h.Value with
    | .error _ => .string h.Value
    | .ok value => value
  else .nil

/-- The loop of `GetAccountHistory` over the iterator: one record per entry, appended in
order; an error of `Next` ends the call. -/
def GetAccountHistory.loop :
    List (Except String KeyModification) → List HistoryRecord → Except Error (List HistoryRecord)
  | [], records => .ok records
  | .error err :: _, _ => .error (.stub err)
  | .ok h :: rest, records =>
    GetAccountHistory.loop rest
      (records ++ [⟨h.TxId, h.Timestamp, h.IsDelete, GetAccountHistory.value h⟩])

/-- `GetAccountHistory` returns the history for a key. -/
def GetAccountHistory (ctx : TransactionContext) (key : String) :
    Except Error (List HistoryRecord) :=
  match ctx.GetStub.GetHistoryForKey key with
  | .error err => .error (.stub err)
  | .ok resultsIterator => GetAccountHistory.loop resultsIterator []

/-! ## Runs of the contract -/

/-- One call of the contract with its arguments. -/
inductive Call where
  | AccountExists (key : String)
  | CreateAccount (key dealerID msisdn mpin balanceStr status transAmountStr transType
      remarks : String)
  | ReadAccount (key : String)
  | UpdateAccount (key dealerID msisdn mpin balanceStr status transAmountStr transType
      remarks : String)
  | GetAccountHistory (key : String)

/-- One transaction of a run: its id and timestamp, the errors the ledger answers with
while it runs, and the call it makes. -/
structure Invocation where
  txID : String
  ts : Timestamp
  faults : Faults
  call : Call

/-- The context in which an invocation runs on ledger `l`. -/
def Invocation.ctx (i : Invocation) (l : Ledger) : TransactionContext :=
  TransactionContext.on i.txID i.ts { l with faults := i.faults }

/-- The ledger after an invocation. The three reading calls hand no ledger back: they
leave the one they ran against. -/
def Invocation.run (l : Ledger) (i : Invocation) : Ledger :=
  match i.call with
  | .AccountExists _ => (i.ctx l).GetStub.ledger
  | .CreateAccount key dealerID msisdn mpin balanceStr status transAmountStr transType remarks =>
    (CreateAccount (i.ctx l) key dealerID msisdn mpin balanceStr status transAmountStr transType
      remarks).2
  | .ReadAccount _ => (i.ctx l).GetStub.ledger
  | .UpdateAccount key dealerID msisdn mpin balanceStr status transAmountStr transType remarks =>
    (UpdateAccount (i.ctx l) key dealerID msisdn mpin balanceStr status transAmountStr transType
      remarks).2
  | .GetAccountHistory _ => (i.ctx l).GetStub.ledger

/-- The ledger after a sequence of invocations. -/
def runAll (l : Ledger) (trace : List Invocation) : Ledger := trace.foldl Invocation.run l

/-- The invocation is a `CreateAccount` of `key` that succeeds on ledger `l`. -/
def Invocation.creates (l : Ledger) (i : Invocation) (key : String) : Prop :=
  match i.call with
  | .CreateAccount k dealerID msisdn mpin balanceStr status transAmountStr transType remarks =>
    k = key ∧
    (CreateAccount (i.ctx l) k dealerID msisdn mpin balanceStr status transAmountStr transType
      remarks).1 = .ok ()
  | _ => False

/-- The invocation is a call of `CreateAccount`. -/
def Invocation.isCreate (i : Invocation) : Bool :=
  match i.call with
  | .CreateAccount _ _ _ _ _ _ _ _ _ => true
  | _ => false

/-- A value is stored under `key`. -/
def Ledger.has (l : Ledger) (key : String) : Bool := (l.state.lookup key).isSome

/-- The record of `GetAccountHistory` for a history entry. -/
def HistoryRecord.of (h : KeyModification) : HistoryRecord :=
  ⟨h.TxId, h.Timestamp, h.IsDelete, GetAccountHistory.value h⟩

namespace Scenario

/-- An empty ledger that serves every call and iterates histories newest first. -/
def ledger0 : Ledger := Ledger.empty true Faults.none

def ctx0 : TransactionContext := .on "tx1" ⟨1, 0⟩ ledger0

/-- The ledger after `CreateAccount("acc1", "D1", "9990000001", "1234", "100.50",
"ACTIVE", "0", "CREDIT", "init")`. -/
def ledger1 : Ledger :=
  (CreateAccount ctx0 "acc1" "D1" "9990000001" "1234" "100.50" "ACTIVE" "0" "CREDIT" "init").2

def ctx1 : TransactionContext := .on "tx2" ⟨2, 0⟩ ledger1

/-- A ledger that refuses every write with an error. -/
def ledgerReadOnly : Ledger :=
  ⟨[], [], true, ⟨fun _ => none, fun _ _ => some "write refused", fun _ => none, fun _ _ => none⟩⟩

/-- History entries of three kinds: a JSON document, bytes that are not JSON, and the
empty value of a deletion. -/
def entries : List KeyModification :=
  [⟨"tx3", "", ⟨3, 0⟩, true⟩, ⟨"tx2", "not json", ⟨2, 0⟩, false⟩, ⟨"tx1", "[true]", ⟨1, 0⟩, false⟩]

/-- A ledger whose history of `acc1` is `entries`. -/
def ledgerEntries : Ledger :=
  ⟨[], entries.reverse.map (fun h => ("acc1", h)), true, Faults.none⟩

end Scenario

/-! ## Lemmas on the library models -/

theorem GetState_on (txID : String) (ts : Timestamp) (l : Ledger) (key : String) :
    (TransactionContext.on txID ts l).GetStub.GetState key =
      match l.faults.getState key with
      | some e => .error e
      | none => .ok (l.state.lookup key) := rfl

/-- A read depends on the ledger only, not on the transaction that makes it. -/
theorem GetState_congr (ctx ctx1 : TransactionContext)
    (h : ctx1.GetStub.ledger = ctx.GetStub.ledger) (key : String) :
    ctx1.GetStub.GetState key = ctx.GetStub.GetState key := by
  simp only [ChaincodeStub.GetState, h]

/-- A served write: the ledger it leaves. -/
theorem PutState_ok (stub : ChaincodeStub) (key value : String) (l : Ledger)
    (h : stub.PutState key value = .ok l) :
    l = { stub.ledger with
          state := (key, value) :: stub.ledger.state,
          log := stub.ledger.log ++ [(key, ⟨stub.TxID, value, stub.TxTimestamp, false⟩)] } := by
  unfold ChaincodeStub.PutState at h
  split at h
  · cases h
  · cases h; rfl

/-- After a served write the key reads back the value written, when the read is served. -/
theorem GetState_after_PutState (stub : ChaincodeStub) (key value : String) (l : Ledger)
    (h : stub.PutState key value = .ok l) (ctx1 : TransactionContext)
    (h1 : ctx1.GetStub.ledger = l) (hg : stub.ledger.faults.getState key = none) :
    ctx1.GetStub.GetState key = .ok (some value) := by
  have hl := PutState_ok stub key value l h
  simp only [ChaincodeStub.GetState, h1, hl, hg, List.lookup, beq_self_eq_true]

/-- A failing `ParseFloat` reports the text it was given. -/
theorem ParseFloat_error_Num (s : String) (e : strconv.NumError)
    (h : strconv.ParseFloat s = .error e) : e.Num = s ∧ e.Func = "ParseFloat" := by
  unfold strconv.ParseFloat at h
  split at h
  rename_i f n err hat
  split at h
  · cases h; exact ⟨rfl, rfl⟩
  · split at h
    · cases h
    · rename_i e1
      cases h
      unfold strconv.atof64 at hat
      dsimp only at hat
      split at hat
      · cases hat
      · split at hat
        · cases hat; exact ⟨rfl, rfl⟩
        · split at hat
          · cases hat
          · cases hat; exact ⟨rfl, rfl⟩

/-! ## Lemmas on the contract functions -/

/-- `CreateAccount` step by step when every step goes through. -/
theorem CreateAccount_eq_ok (ctx : TransactionContext) (key dealerID msisdn mpin balanceStr
    status transAmountStr transType remarks : String) (b t : float64) (bytes : String)
    (l : Ledger)
    (habs : ctx.GetStub.GetState key = .ok none)
    (hB : strconv.ParseFloat balanceStr = .ok b)
    (hT : strconv.ParseFloat transAmountStr = .ok t)
    (hM : json.Marshal ⟨dealerID, msisdn, mpin, b, status, t, transType, remarks⟩ = .ok bytes)
    (hP : ctx.GetStub.PutState key bytes = .ok l) :
    CreateAccount ctx key dealerID msisdn mpin balanceStr status transAmountStr transType
      remarks = (.ok (), l) := by
  simp only [CreateAccount, AccountExists, habs, Option.isSome_none, Bool.false_eq_true,
    if_false, hB, hT, hM, hP]

/-- What a successful `CreateAccount` went through. -/
theorem CreateAccount_ok_inv (ctx : TransactionContext) (key dealerID msisdn mpin balanceStr
    status transAmountStr transType remarks : String)
    (h : (CreateAccount ctx key dealerID msisdn mpin balanceStr status transAmountStr transType
        remarks).1 = .ok ()) :
    ∃ b t bytes l,
      ctx.GetStub.GetState key = .ok none ∧
      strconv.ParseFloat balanceStr = .ok b ∧
      strconv.ParseFloat transAmountStr = .ok t ∧
      json.Marshal ⟨dealerID, msisdn, mpin, b, status, t, transType, remarks⟩ = .ok bytes ∧
      ctx.GetStub.PutState key bytes = .ok l ∧
      (CreateAccount ctx key dealerID msisdn mpin balanceStr status transAmountStr transType
        remarks).2 = l := by
  unfold CreateAccount AccountExists at h
  cases hG : ctx.GetStub.GetState key with
  | error e => simp only [hG] at h; cases h
  | ok data =>
    cases data with
    | some d => simp only [hG, Option.isSome_some, if_true] at h; cases h
    | none =>
      simp only [hG, Option.isSome_none, Bool.false_eq_true, if_false] at h
      cases hB : strconv.ParseFloat balanceStr with
      | error e => simp only [hB] at h; cases h
      | ok b =>
        simp only [hB] at h
        cases hT : strconv.ParseFloat transAmountStr with
        | error e => simp only [hT] at h; cases h
        | ok t =>
          simp only [hT] at h
          cases hM : json.Marshal ⟨dealerID, msisdn, mpin, b, status, t, transType, remarks⟩ with
          | error e => simp only [hM] at h; cases h
          | ok bytes =>
            simp only [hM] at h
            cases hP : ctx.GetStub.PutState key bytes with
            | error e => simp only [hP] at h; cases h
            | ok l =>
              refine ⟨b, t, bytes, l, rfl, rfl, rfl, hM, hP, ?_⟩
              rw [CreateAccount_eq_ok ctx key dealerID msisdn mpin balanceStr status
                transAmountStr transType remarks b t bytes l hG hB hT hM hP]

/-- A failing `CreateAccount` leaves the ledger it ran against. -/
theorem CreateAccount_error_ledger (ctx : TransactionContext) (key dealerID msisdn mpin
    balanceStr status transAmountStr transType remarks : String) (err : Error)
    (h : (CreateAccount ctx key dealerID msisdn mpin balanceStr status transAmountStr transType
        remarks).1 = .error err) :
    (CreateAccount ctx key dealerID msisdn mpin balanceStr status transAmountStr transType
        remarks).2 = ctx.GetStub.ledger := by
  unfold CreateAccount at h ⊢
  cases hE : AccountExists ctx key with
  | error e => simp only [hE]
  | ok ex =>
    simp only [hE] at h ⊢
    cases ex with
    | true => simp
    | false =>
      simp only [Bool.false_eq_true, if_false] at h ⊢
      cases hB : strconv.ParseFloat balanceStr with
      | error e => simp only [hB]
      | ok b =>
        simp only [hB] at h ⊢
        cases hT : strconv.ParseFloat transAmountStr with
        | error e => simp only [hT]
        | ok t =>
          simp only [hT] at h ⊢
          cases hM : json.Marshal ⟨dealerID, msisdn, mpin, b, status, t, transType, remarks⟩ with
          | error e => simp only [hM]
          | ok bytes =>
            simp only [hM] at h ⊢
            cases hP : ctx.GetStub.PutState key bytes with
            | error e => simp only [hP]
            | ok l => simp only [hP] at h; cases h

/-- What a successful `ReadAccount` went through. -/
theorem ReadAccount_ok_inv (ctx : TransactionContext) (key : String) (r : Account)
    (h : ReadAccount ctx key = .ok r) :
    ∃ data, ctx.GetStub.GetState key = .ok (some data) ∧ json.Unmarshal data = .ok r := by
  unfold ReadAccount at h
  cases hG : ctx.GetStub.GetState key with
  | error e => simp only [hG] at h; cases h
  | ok data =>
    cases data with
    | none => simp only [hG] at h; cases h
    | some d =>
      simp only [hG] at h
      cases hU : json.Unmarshal d with
      | error e => simp only [hU] at h; cases h
      | ok a => simp only [hU] at h; cases h; exact ⟨d, rfl, hU⟩

/-- What a successful in-memory update went through: the numeric texts that are not
empty parsed. -/
theorem merge_ok_inv (r r1 : Account)
    (dealerID msisdn mpin balanceStr status transAmountStr transType remarks : String)
    (h : UpdateAccount.merge r dealerID msisdn mpin balanceStr status transAmountStr transType
      remarks = .ok r1) :
    ∃ b ta, (balanceStr ≠ "" → strconv.ParseFloat balanceStr = .ok b) ∧
      (transAmountStr ≠ "" → strconv.ParseFloat transAmountStr = .ok ta) := by
  unfold UpdateAccount.merge UpdateAccount.setBalance UpdateAccount.setTransAmount at h
  by_cases h4 : balanceStr = ""
  · by_cases h6 : transAmountStr = ""
    · exact ⟨float64.zero, float64.zero, fun c => absurd h4 c, fun c => absurd h6 c⟩
    · cases hT : strconv.ParseFloat transAmountStr with
      | error e => simp [h4, h6, hT] at h
      | ok ta => exact ⟨float64.zero, ta, fun c => absurd h4 c, fun _ => rfl⟩
  · cases hB : strconv.ParseFloat balanceStr with
    | error e => simp [h4, hB] at h
    | ok b =>
      by_cases h6 : transAmountStr = ""
      · exact ⟨b, float64.zero, fun _ => rfl, fun c => absurd h6 c⟩
      · cases hT : strconv.ParseFloat transAmountStr with
        | error e => simp [h4, h6, hB, hT] at h
        | ok ta => exact ⟨b, ta, fun _ => rfl, fun _ => rfl⟩

/-- `UpdateAccount` step by step when every step goes through. -/
theorem UpdateAccount_eq_ok (ctx : TransactionContext) (key dealerID msisdn mpin balanceStr
    status transAmountStr transType remarks : String) (r r1 : Account) (bytes : String)
    (l : Ledger)
    (hR : ReadAccount ctx key = .ok r)
    (hm : UpdateAccount.merge r dealerID msisdn mpin balanceStr status transAmountStr transType
      remarks = .ok r1)
    (hM : json.Marshal r1 = .ok bytes)
    (hP : ctx.GetStub.PutState key bytes = .ok l) :
    UpdateAccount ctx key dealerID msisdn mpin balanceStr status transAmountStr transType
      remarks = (.ok (), l) := by
  simp only [UpdateAccount, hR, hm, hM, hP]

/-- What a successful `UpdateAccount` went through. -/
theorem UpdateAccount_ok_inv (ctx : TransactionContext) (key dealerID msisdn mpin balanceStr
    status transAmountStr transType remarks : String)
    (h : (UpdateAccount ctx key dealerID msisdn mpin balanceStr status transAmountStr transType
        remarks).1 = .ok ()) :
    ∃ r r1 bytes l,
      ReadAccount ctx key = .ok r ∧
      UpdateAccount.merge r dealerID msisdn mpin balanceStr status transAmountStr transType
        remarks = .ok r1 ∧
      json.Marshal r1 = .ok bytes ∧
      ctx.GetStub.PutState key bytes = .ok l ∧
      (UpdateAccount ctx key dealerID msisdn mpin balanceStr status transAmountStr transType
        remarks).2 = l := by
  unfold UpdateAccount at h
  cases hR : ReadAccount ctx key with
  | error e => simp only [hR] at h; cases h
  | ok r =>
    simp only [hR] at h
    cases hm : UpdateAccount.merge r dealerID msisdn mpin balanceStr status transAmountStr
        transType remarks with
    | error e => simp only [hm] at h; cases h
    | ok r1 =>
      simp only [hm] at h
      cases hM : json.Marshal r1 with
      | error e => simp only [hM] at h; cases h
      | ok bytes =>
        simp only [hM] at h
        cases hP : ctx.GetStub.PutState key bytes with
        | error e => simp only [hP] at h; cases h
        | ok l =>
          refine ⟨r, r1, bytes, l, rfl, hm, hM, hP, ?_⟩
          rw [UpdateAccount_eq_ok ctx key dealerID msisdn mpin balanceStr status
            transAmountStr transType remarks r r1 bytes l hR hm hM hP]

/-- A failing `UpdateAccount` leaves the ledger it ran against. -/
theorem UpdateAccount_error_ledger (ctx : TransactionContext) (key dealerID msisdn mpin
    balanceStr status transAmountStr transType remarks : String) (err : Error)
    (h : (UpdateAccount ctx key dealerID msisdn mpin balanceStr status transAmountStr transType
        remarks).1 = .error err) :
    (UpdateAccount ctx key dealerID msisdn mpin balanceStr status transAmountStr transType
        remarks).2 = ctx.GetStub.ledger := by
  unfold UpdateAccount at h ⊢
  cases hR : ReadAccount ctx key with
  | error e => simp only [hR]
  | ok r =>
    simp only [hR] at h ⊢
    cases hm : UpdateAccount.merge r dealerID msisdn mpin balanceStr status transAmountStr
        transType remarks with
    | error e => simp only [hm]
    | ok r1 =>
      simp only [hm] at h ⊢
      cases hM : json.Marshal r1 with
      | error e => simp only [hM]
      | ok bytes =>
        simp only [hM] at h ⊢
        cases hP : ctx.GetStub.PutState key bytes with
        | error e => simp only [hP]
        | ok l => simp only [hP] at h; cases h

/-- A served read of a key means the ledger answers reads of that key. -/
theorem GetState_ok_faults (ctx : TransactionContext) (key : String) (v : Option String)
    (h : ctx.GetStub.GetState key = .ok v) :
    ctx.GetStub.ledger.faults.getState key = none ∧ ctx.GetStub.ledger.state.lookup key = v := by
  unfold ChaincodeStub.GetState at h
  split at h
  · cases h
  · rename_i hf
    cases h
    exact ⟨hf, rfl⟩

/-- The read of a key without fault is the lookup in the world state. -/
theorem GetState_of_faults (ctx : TransactionContext) (key : String)
    (h : ctx.GetStub.ledger.faults.getState key = none) :
    ctx.GetStub.GetState key = .ok (ctx.GetStub.ledger.state.lookup key) := by
  unfold ChaincodeStub.GetState
  simp only [h]

/-- `CreateAccount` on a key with a stored value. -/
theorem CreateAccount_exists (ctx : TransactionContext) (key dealerID msisdn mpin balanceStr
    status transAmountStr transType remarks data : String)
    (h : ctx.GetStub.GetState key = .ok (some data)) :
    CreateAccount ctx key dealerID msisdn mpin balanceStr status transAmountStr transType
      remarks = (.error (.alreadyExists key), ctx.GetStub.ledger) := by
  simp only [CreateAccount, AccountExists, h, Option.isSome_some, if_true]

/-! ## The claims -/

/-- C1, creation uniqueness. After a successful `CreateAccount` of `key`, a
`CreateAccount` of `key` run against the resulting ledger, in any transaction and with
any arguments (parsing or not), fails with the already-exists error of `key` and leaves
the ledger as it was. -/
theorem create_twice_already_exists (ctx : TransactionContext)
    (key dealerID msisdn mpin balanceStr status transAmountStr transType remarks : String)
    (dealerID1 msisdn1 mpin1 balanceStr1 status1 transAmountStr1 transType1 remarks1 : String)
    (txID : String) (ts : Timestamp)
    (h : (CreateAccount ctx key dealerID msisdn mpin balanceStr status transAmountStr transType
        remarks).1 = .ok ()) :
    CreateAccount
        (.on txID ts (CreateAccount ctx key dealerID msisdn mpin balanceStr status
          transAmountStr transType remarks).2)
        key dealerID1 msisdn1 mpin1 balanceStr1 status1 transAmountStr1 transType1 remarks1 =
      (.error (.alreadyExists key),
       (CreateAccount ctx key dealerID msisdn mpin balanceStr status transAmountStr transType
          remarks).2) := by
  obtain ⟨b, t, bytes, l, habs, _, _, _, hP, hl⟩ :=
    CreateAccount_ok_inv ctx key dealerID msisdn mpin balanceStr status transAmountStr
      transType remarks h
  rw [hl]
  have hf := (GetState_ok_faults ctx key none habs).1
  have hg := GetState_after_PutState ctx.GetStub key bytes l hP (.on txID ts l) rfl hf
  exact CreateAccount_exists (.on txID ts l) key dealerID1 msisdn1 mpin1 balanceStr1 status1
    transAmountStr1 transType1 remarks1 bytes hg

/-- C1 at the scenario: the account `acc1` is created, then created again with numeric
texts that do not parse. -/
theorem create_twice_already_exists_witness :
    (CreateAccount Scenario.ctx0 "acc1" "D1" "9990000001" "1234" "100.50" "ACTIVE" "0" "CREDIT"
        "init").1 = .ok () ∧
    CreateAccount
        (.on "tx2" ⟨2, 0⟩ (CreateAccount Scenario.ctx0 "acc1" "D1" "9990000001" "1234" "100.50"
          "ACTIVE" "0" "CREDIT" "init").2)
        "acc1" "D9" "" "" "abc" "" "xyz" "" "" =
      (.error (.alreadyExists "acc1"),
       (CreateAccount Scenario.ctx0 "acc1" "D1" "9990000001" "1234" "100.50" "ACTIVE" "0"
          "CREDIT" "init").2) :=
  ⟨by decide!,
   create_twice_already_exists Scenario.ctx0 "acc1" "D1" "9990000001" "1234" "100.50" "ACTIVE"
     "0" "CREDIT" "init" "D9" "" "" "abc" "" "xyz" "" "" "tx2" ⟨2, 0⟩ (by decide!)⟩

/-- C4, atomicity on failure. Whenever `CreateAccount` or `UpdateAccount` returns an
error, whichever it is, the ledger after the call is the ledger before it: the same
stored values, the same history. -/
theorem failure_leaves_ledger (ctx : TransactionContext)
    (key dealerID msisdn mpin balanceStr status transAmountStr transType remarks : String)
    (err : Error) :
    ((CreateAccount ctx key dealerID msisdn mpin balanceStr status transAmountStr transType
        remarks).1 = .error err →
      (CreateAccount ctx key dealerID msisdn mpin balanceStr status transAmountStr transType
        remarks).2 = ctx.GetStub.ledger) ∧
    ((UpdateAccount ctx key dealerID msisdn mpin balanceStr status transAmountStr transType
        remarks).1 = .error err →
      (UpdateAccount ctx key dealerID msisdn mpin balanceStr status transAmountStr transType
        remarks).2 = ctx.GetStub.ledger) :=
  ⟨CreateAccount_error_ledger ctx key dealerID msisdn mpin balanceStr status transAmountStr
      transType remarks err,
   UpdateAccount_error_ledger ctx key dealerID msisdn mpin balanceStr status transAmountStr
      transType remarks err⟩

/-- C4 at a write the ledger refuses: `CreateAccount` fails with the ledger's error after
every check has passed, and the ledger is as before. -/
theorem failure_leaves_ledger_witness :
    (CreateAccount (.on "tx1" ⟨1, 0⟩ Scenario.ledgerReadOnly) "acc1" "D1" "9990000001" "1234"
        "100.50" "ACTIVE" "0" "CREDIT" "init").1 = .error (.stub "write refused") ∧
    (CreateAccount (.on "tx1" ⟨1, 0⟩ Scenario.ledgerReadOnly) "acc1" "D1" "9990000001" "1234"
        "100.50" "ACTIVE" "0" "CREDIT" "init").2 = Scenario.ledgerReadOnly :=
  ⟨by decide!,
   (failure_leaves_ledger (.on "tx1" ⟨1, 0⟩ Scenario.ledgerReadOnly) "acc1" "D1" "9990000001"
      "1234" "100.50" "ACTIVE" "0" "CREDIT" "init" (.stub "write refused")).1 (by decide!)⟩

/-- C5, numeric validation on create. On a key without stored value, when one of the two
numeric texts does not parse, `CreateAccount` fails with the invalid-field error of the
first of them in the order balance, transAmount; the error carries the text that did not
parse; and `AccountExists` on the ledger after the call is still false. -/
theorem create_numeric_validation (ctx : TransactionContext)
    (key dealerID msisdn mpin balanceStr status transAmountStr transType remarks : String)
    (txID : String) (ts : Timestamp)
    (habs : ctx.GetStub.GetState key = .ok none)
    (hbad : (∃ e, strconv.ParseFloat balanceStr = .error e) ∨
            (∃ e, strconv.ParseFloat transAmountStr = .error e)) :
    (∀ e, strconv.ParseFloat balanceStr = .error e →
      (CreateAccount ctx key dealerID msisdn mpin balanceStr status transAmountStr transType
        remarks).1 = .error (.invalidBalance e) ∧ e.Num = balanceStr) ∧
    (∀ b e, strconv.ParseFloat balanceStr = .ok b →
      strconv.ParseFloat transAmountStr = .error e →
      (CreateAccount ctx key dealerID msisdn mpin balanceStr status transAmountStr transType
        remarks).1 = .error (.invalidTransAmount e) ∧ e.Num = transAmountStr) ∧
    AccountExists
      (.on txID ts (CreateAccount ctx key dealerID msisdn mpin balanceStr status
        transAmountStr transType remarks).2) key = .ok false := by
  have h1 : ∀ e, strconv.ParseFloat balanceStr = .error e →
      (CreateAccount ctx key dealerID msisdn mpin balanceStr status transAmountStr transType
        remarks).1 = .error (.invalidBalance e) ∧ e.Num = balanceStr := by
    intro e he
    refine ⟨?_, (ParseFloat_error_Num balanceStr e he).1⟩
    simp only [CreateAccount, AccountExists, habs, Option.isSome_none, Bool.false_eq_true,
      if_false, he]
  have h2 : ∀ b e, strconv.ParseFloat balanceStr = .ok b →
      strconv.ParseFloat transAmountStr = .error e →
      (CreateAccount ctx key dealerID msisdn mpin balanceStr status transAmountStr transType
        remarks).1 = .error (.invalidTransAmount e) ∧ e.Num = transAmountStr := by
    intro b e hb he
    refine ⟨?_, (ParseFloat_error_Num transAmountStr e he).1⟩
    simp only [CreateAccount, AccountExists, habs, Option.isSome_none, Bool.false_eq_true,
      if_false, hb, he]
  refine ⟨h1, h2, ?_⟩
  have hfail : ∃ err, (CreateAccount ctx key dealerID msisdn mpin balanceStr status
      transAmountStr transType remarks).1 = .error err := by
    cases hB : strconv.ParseFloat balanceStr with
    | error e => exact ⟨_, (h1 e hB).1⟩
    | ok b =>
      rcases hbad with ⟨e, he⟩ | ⟨e, he⟩
      · rw [hB] at he; cases he
      · exact ⟨_, (h2 b e hB he).1⟩
  obtain ⟨err, herr⟩ := hfail
  rw [CreateAccount_error_ledger ctx key dealerID msisdn mpin balanceStr status
    transAmountStr transType remarks err herr]
  have hg : (TransactionContext.on txID ts ctx.GetStub.ledger).GetStub.GetState key = .ok none := by
    rw [GetState_congr ctx (.on txID ts ctx.GetStub.ledger) rfl key, habs]
  simp only [AccountExists, hg, Option.isSome_none]

/-- C5 at the witness of the claim: balance `abc` on the empty ledger. -/
theorem create_numeric_validation_witness :
    Scenario.ctx0.GetStub.GetState "acc1" = .ok none ∧
    (CreateAccount Scenario.ctx0 "acc1" "D1" "9990000001" "1234" "abc" "ACTIVE" "0" "CREDIT"
        "init").1 = .error (.invalidBalance ⟨"ParseFloat", "abc", .ErrSyntax⟩) ∧
    AccountExists
      (.on "tx2" ⟨2, 0⟩ (CreateAccount Scenario.ctx0 "acc1" "D1" "9990000001" "1234" "abc"
        "ACTIVE" "0" "CREDIT" "init").2) "acc1" = .ok false :=
  have h := create_numeric_validation Scenario.ctx0 "acc1" "D1" "9990000001" "1234" "abc"
    "ACTIVE" "0" "CREDIT" "init" "tx2" ⟨2, 0⟩ (by decide!)
    (Or.inl ⟨⟨"ParseFloat", "abc", .ErrSyntax⟩, by decide!⟩)
  ⟨by decide!, (h.1 ⟨"ParseFloat", "abc", .ErrSyntax⟩ (by decide!)).1, h.2.2⟩

/-- C6, not-found consistency of the point operations. On a key without stored value
(the stub's read returns no value), `ReadAccount` fails with the not-found error of the
key, `UpdateAccount` fails with the same error for every argument list and leaves the
ledger as it was, and `AccountExists` returns false without error. -/
theorem not_found_consistency (ctx : TransactionContext) (key : String)
    (h : ctx.GetStub.GetState key = .ok none) :
    ReadAccount ctx key = .error (.doesNotExist key) ∧
    (∀ dealerID msisdn mpin balanceStr status transAmountStr transType remarks : String,
      UpdateAccount ctx key dealerID msisdn mpin balanceStr status transAmountStr transType
        remarks = (.error (.doesNotExist key), ctx.GetStub.ledger)) ∧
    AccountExists ctx key = .ok false := by
  have hr : ReadAccount ctx key = .error (.doesNotExist key) := by
    simp only [ReadAccount, h]
  refine ⟨hr, ?_, ?_⟩
  · intro dealerID msisdn mpin balanceStr status transAmountStr transType remarks
    simp only [UpdateAccount, hr]
  · simp only [AccountExists, h, Option.isSome_none]

/-- C6 on the empty ledger. -/
theorem not_found_consistency_witness :
    Scenario.ctx0.GetStub.GetState "acc1" = .ok none ∧
    ReadAccount Scenario.ctx0 "acc1" = .error (.doesNotExist "acc1") ∧
    UpdateAccount Scenario.ctx0 "acc1" "D2" "" "" "abc" "" "" "" "" =
      (.error (.doesNotExist "acc1"), Scenario.ctx0.GetStub.ledger) ∧
    AccountExists Scenario.ctx0 "acc1" = .ok false :=
  have h := not_found_consistency Scenario.ctx0 "acc1" (by decide!)
  ⟨by decide!, h.1, h.2.1 "D2" "" "" "abc" "" "" "" "", h.2.2⟩

/-- A Go string has length zero exactly when it is the empty string. -/
theorem length_pos_iff_ne_empty (s : String) : s.length > 0 ↔ s ≠ "" := by
  have h0 : s = "" ↔ s.data = [] := by
    constructor
    · intro h; rw [h]
    · intro h; exact String.ext h
  rw [ne_eq, h0, String.length, gt_iff_lt, List.length_pos]

/-- The loop of `GetAccountHistory` over an iteration without error appends one record
per entry, in order. -/
theorem loop_ok (entries : List KeyModification) (records : List HistoryRecord) :
    GetAccountHistory.loop (entries.map .ok) records =
      .ok (records ++ entries.map HistoryRecord.of) := by
  induction entries generalizing records with
  | nil => simp [GetAccountHistory.loop]
  | cons h hs ih =>
    simp only [List.map_cons, GetAccountHistory.loop, ih, HistoryRecord.of, List.append_assoc,
      List.singleton_append]

/-- The loop of `GetAccountHistory` fails only with an error of the iterator. -/
theorem loop_error (results : List (Except String KeyModification))
    (records : List HistoryRecord) (err : Error)
    (h : GetAccountHistory.loop results records = .error err) : ∃ e, err = .stub e := by
  induction results generalizing records with
  | nil => simp [GetAccountHistory.loop] at h
  | cons x xs ih =>
    cases x with
    | error e =>
      simp only [GetAccountHistory.loop] at h
      cases h
      exact ⟨e, rfl⟩
    | ok k =>
      simp only [GetAccountHistory.loop] at h
      exact ih _ h

/-- C7 fails as stated: on the empty ledger, where `acc1` was never created,
`GetAccountHistory` succeeds with no record instead of failing with not-found. -/
theorem history_of_unknown_key_counterexample :
    ChaincodeStub.historyOf Scenario.ledger0 "acc1" = [] ∧
    Scenario.ledger0.has "acc1" = false ∧
    GetAccountHistory Scenario.ctx0 "acc1" = .ok [] ∧
    GetAccountHistory Scenario.ctx0 "acc1" ≠ .error (.doesNotExist "acc1") :=
  ⟨by decide, by decide, rfl, fun h => by cases h⟩

/-- C7 as amended. On a key that was never created (the ledger holds no history entry
for it) `GetAccountHistory`, when the ledger serves the call, succeeds and returns the
empty sequence; and on no ledger and for no key does it return a not-found error. -/
theorem history_of_unknown_key_is_empty (ctx : TransactionContext) (key : String)
    (hh : ChaincodeStub.historyOf ctx.GetStub.ledger key = [])
    (hs : ctx.GetStub.ledger.faults.getHistoryForKey key = none) :
    GetAccountHistory ctx key = .ok [] ∧
    ∀ (ctx1 : TransactionContext) (k k1 : String),
      GetAccountHistory ctx1 k ≠ .error (.doesNotExist k1) := by
  constructor
  · simp only [GetAccountHistory, ChaincodeStub.GetHistoryForKey, hs, hh,
      ChaincodeStub.nextResults, GetAccountHistory.loop]
  · intro ctx1 k k1 h
    unfold GetAccountHistory at h
    cases hG : ctx1.GetStub.GetHistoryForKey k with
    | error e => simp only [hG] at h; cases h
    | ok it =>
      simp only [hG] at h
      obtain ⟨e, he⟩ := loop_error it [] _ h
      cases he

/-- C7 as amended, on the empty ledger. -/
theorem history_of_unknown_key_is_empty_witness :
    ChaincodeStub.historyOf Scenario.ctx0.GetStub.ledger "acc1" = [] ∧
    Scenario.ctx0.GetStub.ledger.faults.getHistoryForKey "acc1" = none ∧
    GetAccountHistory Scenario.ctx0 "acc1" = .ok [] :=
  ⟨by decide, by decide,
   (history_of_unknown_key_is_empty Scenario.ctx0 "acc1" (by decide) (by decide)).1⟩

/-- C9, history tolerates undecodable entries. When the history iterator of a key is
opened and yields its entries without error, `GetAccountHistory` succeeds and returns
one record per entry, in the order of the iterator, each with the transaction id, the
timestamp and the deletion flag of its entry; the `Value` of the record is absent (nil)
for an entry with empty bytes, the bytes as a string for non-empty bytes that do not
decode, and the decoded value for bytes that decode. -/
theorem history_tolerates_undecodable (ctx : TransactionContext) (key : String)
    (entries : List KeyModification)
    (h : ctx.GetStub.GetHistoryForKey key = .ok (entries.map .ok)) :
    ∃ records : List HistoryRecord,
      GetAccountHistory ctx key = .ok records ∧
      records.length = entries.length ∧
      ∀ (i : Nat) (hi : i < entries.length) (hr : i < records.length),
        (records.get ⟨i, hr⟩).TxId = (entries.get ⟨i, hi⟩).TxId ∧
        (records.get ⟨i, hr⟩).Timestamp = (entries.get ⟨i, hi⟩).Timestamp ∧
        (records.get ⟨i, hr⟩).IsDelete = (entries.get ⟨i, hi⟩).IsDelete ∧
        ((entries.get ⟨i, hi⟩).Value = "" → (records.get ⟨i, hr⟩).Value = .nil) ∧
        ((entries.get ⟨i, hi⟩).Value ≠ "" →
          (∀ e, json.UnmarshalAny (entries.get ⟨i, hi⟩).Value = .error e →
            (records.get ⟨i, hr⟩).Value = .string (entries.get ⟨i, hi⟩).Value) ∧
          (∀ v, json.UnmarshalAny (entries.get ⟨i, hi⟩).Value = .ok v →
            (records.get ⟨i, hr⟩).Value = v)) := by
  refine ⟨entries.map HistoryRecord.of, ?_, by simp, ?_⟩
  · simp only [GetAccountHistory, h, loop_ok, List.nil_append]
  · intro i hi hr
    simp only [List.get_eq_getElem, List.getElem_map, HistoryRecord.of,
      GetAccountHistory.value, true_and]
    refine ⟨?_, ?_⟩
    · intro he
      have : ¬ (entries[i].Value.length > 0) := by
        rw [length_pos_iff_ne_empty]; simpa using he
      simp only [this, if_false]
    · intro hne
      have : entries[i].Value.length > 0 := (length_pos_iff_ne_empty _).2 hne
      simp only [this, if_true]
      refine ⟨?_, ?_⟩
      · intro e he; simp only [he]
      · intro v hv; simp only [hv]

/-- C9 on a history of three entries: a deletion marker without bytes, bytes that are
not JSON, and a JSON document. -/
theorem history_tolerates_undecodable_witness :
    (TransactionContext.on "tx9" ⟨9, 0⟩ Scenario.ledgerEntries).GetStub.GetHistoryForKey "acc1" =
      .ok (Scenario.entries.map .ok) ∧
    ∃ records : List HistoryRecord,
      GetAccountHistory (.on "tx9" ⟨9, 0⟩ Scenario.ledgerEntries) "acc1" = .ok records ∧
      records.length = 3 :=
  ⟨by decide!,
   (history_tolerates_undecodable (.on "tx9" ⟨9, 0⟩ Scenario.ledgerEntries) "acc1"
      Scenario.entries (by decide!)).imp fun _ h => ⟨h.1, h.2.1⟩⟩

/-- The stored values after a served write. -/
theorem has_after_PutState (stub : ChaincodeStub) (k value : String) (l : Ledger)
    (h : stub.PutState k value = .ok l) (key : String) :
    l.has key = (key == k || stub.ledger.has key) := by
  rw [PutState_ok stub k value l h]
  simp only [Ledger.has, List.lookup]
  cases hk : key == k <;> simp

/-- One invocation stores a value under `key` exactly when the key had one or the
invocation is a successful `CreateAccount` of the key. -/
theorem run_has (l : Ledger) (i : Invocation) (key : String) :
    (i.run l).has key = true ↔ (l.has key = true ∨ i.creates l key) := by
  obtain ⟨txID, ts, faults, call⟩ := i
  cases call with
  | AccountExists k => simp [Invocation.run, Invocation.creates, Invocation.ctx,
      TransactionContext.on, TransactionContext.GetStub, Ledger.has]
  | ReadAccount k => simp [Invocation.run, Invocation.creates, Invocation.ctx,
      TransactionContext.on, TransactionContext.GetStub, Ledger.has]
  | GetAccountHistory k => simp [Invocation.run, Invocation.creates, Invocation.ctx,
      TransactionContext.on, TransactionContext.GetStub, Ledger.has]
  | CreateAccount k dealerID msisdn mpin balanceStr status transAmountStr transType remarks =>
    simp only [Invocation.run, Invocation.creates]
    generalize hctx : Invocation.ctx ⟨txID, ts, faults, .CreateAccount k dealerID msisdn mpin
      balanceStr status transAmountStr transType remarks⟩ l = ctx
    have hst : ctx.GetStub.ledger.has key = l.has key := by rw [← hctx]; rfl
    cases h1 : (CreateAccount ctx k dealerID msisdn mpin balanceStr status transAmountStr
        transType remarks).1 with
    | error e =>
      rw [CreateAccount_error_ledger ctx k dealerID msisdn mpin balanceStr status
        transAmountStr transType remarks e h1, hst]
      simp
    | ok u =>
      cases u
      obtain ⟨b, t, bytes, l1, habs, _, _, _, hP, hl⟩ :=
        CreateAccount_ok_inv ctx k dealerID msisdn mpin balanceStr status transAmountStr
          transType remarks h1
      rw [hl, has_after_PutState ctx.GetStub k bytes l1 hP key]
      have : ctx.GetStub.ledger.has key = l.has key := hst
      rw [this]
      simp only [Bool.or_eq_true, beq_iff_eq, and_true]
      constructor
      · rintro (h | h)
        · exact Or.inr h.symm
        · exact Or.inl h
      · rintro (h | h)
        · exact Or.inr h
        · exact Or.inl h.symm
  | UpdateAccount k dealerID msisdn mpin balanceStr status transAmountStr transType remarks =>
    simp only [Invocation.run, Invocation.creates, or_false]
    generalize hctx : Invocation.ctx ⟨txID, ts, faults, .UpdateAccount k dealerID msisdn mpin
      balanceStr status transAmountStr transType remarks⟩ l = ctx
    have hst : ctx.GetStub.ledger.has key = l.has key := by rw [← hctx]; rfl
    cases h1 : (UpdateAccount ctx k dealerID msisdn mpin balanceStr status transAmountStr
        transType remarks).1 with
    | error e =>
      rw [UpdateAccount_error_ledger ctx k dealerID msisdn mpin balanceStr status
        transAmountStr transType remarks e h1, hst]
    | ok u =>
      cases u
      obtain ⟨r, r1, bytes, l1, hR, _, _, hP, hl⟩ :=
        UpdateAccount_ok_inv ctx k dealerID msisdn mpin balanceStr status transAmountStr
          transType remarks h1
      obtain ⟨data, hG, _⟩ := ReadAccount_ok_inv ctx k r hR
      have hk : ctx.GetStub.ledger.has k = true := by
        simp only [Ledger.has, (GetState_ok_faults ctx k _ hG).2, Option.isSome_some]
      rw [hl, has_after_PutState ctx.GetStub k bytes l1 hP key, ← hst]
      simp only [Bool.or_eq_true, beq_iff_eq]
      constructor
      · rintro (h | h)
        · rw [h]; exact hk
        · exact h
      · intro h; exact Or.inr h

/-- The invariant of runs from any ledger: a key has a stored value after the run
exactly when it had one before or some `CreateAccount` of it succeeded during the run. -/
theorem runAll_has (l : Ledger) (trace : List Invocation) (key : String) :
    (runAll l trace).has key = true ↔
      (l.has key = true ∨
        ∃ pre i post, trace = pre ++ i :: post ∧ i.creates (runAll l pre) key) := by
  induction trace generalizing l with
  | nil => simp [runAll]
  | cons i rest ih =>
    have hrun : ∀ pre, runAll l (i :: pre) = runAll (i.run l) pre := fun _ => rfl
    rw [hrun, ih (i.run l), run_has]
    constructor
    · rintro ((h | h) | ⟨pre, j, post, hj, hc⟩)
      · exact Or.inl h
      · exact Or.inr ⟨[], i, rest, rfl, h⟩
      · exact Or.inr ⟨i :: pre, j, post, by rw [hj]; rfl, by rw [hrun]; exact hc⟩
    · rintro (h | ⟨pre, j, post, hj, hc⟩)
      · exact Or.inl (Or.inl h)
      · cases pre with
        | nil =>
          simp only [List.nil_append, List.cons.injEq] at hj
          rw [← hj.1] at hc
          exact Or.inl (Or.inr hc)
        | cons p pre1 =>
          simp only [List.cons_append, List.cons.injEq] at hj
          rw [← hj.1, hrun] at hc
          exact Or.inr ⟨pre1, j, post, hj.2, hc⟩

/-- C10, the existence invariant. Over every sequence of calls of the five operations
from an empty store, each call in a transaction of its own and whatever errors the ledger
answers with along the way, a key has a stored value at the end exactly when some
`CreateAccount` of that key in the sequence succeeded. No call removes a stored key, and
a call other than `CreateAccount` never brings a key into existence. -/
theorem existence_invariant (newestFirst : Bool) (faults : Faults) (trace : List Invocation)
    (key : String) :
    ((runAll (Ledger.empty newestFirst faults) trace).has key = true ↔
      ∃ pre i post, trace = pre ++ i :: post ∧
        i.creates (runAll (Ledger.empty newestFirst faults) pre) key) ∧
    (∀ (l : Ledger) (i : Invocation), l.has key = true → (i.run l).has key = true) ∧
    (∀ (l : Ledger) (i : Invocation), i.isCreate = false →
      (i.run l).has key = true → l.has key = true) := by
  refine ⟨?_, ?_, ?_⟩
  · rw [runAll_has]
    simp [Ledger.empty, Ledger.has]
  · intro l i h
    exact (run_has l i key).2 (Or.inl h)
  · intro l i hi h
    rcases (run_has l i key).1 h with h1 | h1
    · exact h1
    · obtain ⟨txID, ts, faults, call⟩ := i
      cases call <;> simp [Invocation.isCreate, Invocation.creates] at hi h1

